import Mathlib

/-!
Shallow embedding of `src/sway/scripts/fadder.py` (SwayFX fader script).

The script has two parts:
* a fade engine: `add_fade` maintains a dict `fade_queue` of in-flight
  fades keyed by window id, and `fader_loop` advances every fade by its
  per-tick increment each `FRAME_T` seconds, issuing opacity commands;
* a transition resolver: the event handlers `on_window_focus`,
  `on_window_new`, `on_window_floating` read and update the role state
  (`active_win`, `old_win`, `bottom_win`, `floating_windows`) and issue
  `add_fade` / `change_opacity` calls.

Opacities, durations and rates are modelled over `ℚ` (the Python code
uses floats; the arithmetic claims of the spec are stated over exact
rationals).  The sway IPC connection is modelled as a port that may fail
per call, driven by a failure oracle.
-/

namespace Fadder

/-- Constant `FRAME_T = 0.01` seconds between frames. -/
def FRAME_T : ℚ := 1 / 100

/-- Constant `CON_AC = 1.0`, active tiled opacity. -/
def CON_AC : ℚ := 1

/-- Constant `CON_INAC = 0.88`, inactive tiled opacity. -/
def CON_INAC : ℚ := 88 / 100

/-- Constant `FLOAT_AC = 1.0`, active floating opacity. -/
def FLOAT_AC : ℚ := 1

/-- Constant `FLOAT_INAC = 0.88`, inactive floating opacity. -/
def FLOAT_INAC : ℚ := 88 / 100

/-- Constant `BOT_INAC = 0.88`, bottom window opacity. -/
def BOT_INAC : ℚ := 88 / 100

/-- Constant `FADE_TIME = 0.20` seconds. -/
def FADE_TIME : ℚ := 20 / 100

/-- Constant `ALT_FADE_TIME = 0.12` seconds. -/
def ALT_FADE_TIME : ℚ := 12 / 100

def CON_OUT : ℚ := FADE_TIME

def CON_IN : ℚ := 15 / 100

def FLOAT_OUT : ℚ := ALT_FADE_TIME

def FLOAT_IN : ℚ := ALT_FADE_TIME

def BOT_OUT : ℚ := ALT_FADE_TIME

def BOT_IN : ℚ := ALT_FADE_TIME

def BOT_SWITCH_IN : ℚ := FADE_TIME

def BOT_SWITCH_OUT : ℚ := FADE_TIME

def FLOAT_BOT_OUT : ℚ := FADE_TIME

def FLOAT_BOT_IN : ℚ := FADE_TIME

/-- A window as the script sees it through i3ipc: a stable id, a type
string (`"con"` for tiled containers, `"floating_con"` for floating
ones), and the flags read during initialization.  Event containers are
immutable snapshots, so a stored reference keeps the type it had when
the event fired. -/
structure Window where
  id : ℕ
  type : String
  floating : Bool := false
  focused : Bool := false
deriving DecidableEq, Repr

/-- A `SetOpacity` command handed to the window control port:
the call `win.command` formats the value and names the window id. -/
structure Cmd where
  winId : ℕ
  val : ℚ
deriving DecidableEq, Repr

/-- Outcome of one `change_opacity` call: the command succeeded, or the
port raised and the exception was caught and logged as a warning. -/
inductive CmdResult where
  | ok (c : Cmd)
  | warn (winId : ℕ)
deriving DecidableEq, Repr

/-- The raw port call `win.command(...)`: may fail (window gone,
transport error).  Which calls fail is decided by an oracle `fail`
keyed by window id. -/
def command (fail : ℕ → Bool) (w : Window) (v : ℚ) : Except String Cmd :=
  if fail w.id then Except.error "transport"
  else Except.ok ⟨w.id, v⟩

/-- Function `change_opacity(win, opacity)`: wraps the port call in
`try/except`, logging a warning on failure; it always returns. -/
def change_opacity (fail : ℕ → Bool) (w : Window) (v : ℚ) : CmdResult :=
  match command fail w v with
  | Except.ok c => CmdResult.ok c
  | Except.error _ => CmdResult.warn w.id

/-- One in-flight fade, the value stored at `fade_queue[win.id]`:
current `opacity`, per-tick increment `change`, final `target`, and the
window reference. -/
structure Fade where
  opacity : ℚ
  change : ℚ
  target : ℚ
  win : Window
deriving DecidableEq, Repr

/-- The dict `fade_queue` is a Python dict keyed by window id; modelled as an
insertion-ordered association list. -/
abbrev FadeQueue : Type := List (ℕ × Fade)

/-- Python dict assignment `d[k] = v`: update in place if the key is
present (keeping its position), else append. -/
def dictSet : FadeQueue → ℕ → Fade → FadeQueue
  | [], k, f => [(k, f)]
  | p :: ps, k, f => if p.1 = k then (k, f) :: ps else p :: dictSet ps k f

/-- Python dict lookup `d.get(k)`. -/
def dictGet (q : FadeQueue) (k : ℕ) : Option Fade :=
  (q.find? (fun p => p.1 = k)).map Prod.snd

/-- The fade entry `add_fade` builds for a window: opacity starts at
`start` and moves by `change = (FRAME_T / duration) * (target - start)`
per tick. -/
def mkFade (w : Window) (start target duration : ℚ) : Fade :=
  { opacity := start
    change := FRAME_T / duration * (target - start)
    target := target
    win := w }

/-- Method `add_fade(win, start, target, duration)`: no-op on a missing
window; an immediate opacity command when `duration` is falsy or
`start == target`; otherwise insert/replace the queue entry for
`win.id`.  Returns the updated queue and the port results issued during
the call. -/
def add_fade (fail : ℕ → Bool) (q : FadeQueue) (win : Option Window)
    (start target duration : ℚ) : FadeQueue × List CmdResult :=
  match win with
  | none => (q, [])
  | some w =>
    if duration = 0 ∨ start = target then (q, [change_opacity fail w target])
    else (dictSet q w.id (mkFade w start target duration), [])

/-- The per-tick mutation of a single fade: opacity is incremented by
the per-tick change. -/
def stepFade (f : Fade) : Fade :=
  { f with opacity := f.opacity + f.change }

/-- The completion test of `fader_loop`, evaluated after the increment:
`(change > 0 and opacity >= target) or (change < 0 and opacity <= target)`. -/
def fadeDone (f : Fade) : Bool :=
  (decide (0 < f.change) && decide (f.target ≤ f.opacity)) ||
    (decide (f.change < 0) && decide (f.opacity ≤ f.target))

/-- The opacity value one loop iteration issues for a fade (already
incremented): the exact `target` if complete, else the running
`opacity`. -/
def tickCmdVal (f : Fade) : ℚ :=
  if fadeDone f then f.target else f.opacity

/-- The `change_opacity` call one loop iteration makes for a fade
(already incremented). -/
def tickCmdFor (fail : ℕ → Bool) (f : Fade) : CmdResult :=
  change_opacity fail f.win (tickCmdVal f)

/-- One pass of `fader_loop` over the queue: every entry is
incremented; completed entries are popped at the end of the pass. -/
def tickQueue (q : FadeQueue) : FadeQueue :=
  (q.map (fun p => (p.1, stepFade p.2))).filter (fun p => !fadeDone p.2)

/-- The port results of one pass of `fader_loop`, in iteration order:
one `change_opacity` call per queued fade, regardless of how earlier
calls fared. -/
def tickCmds (fail : ℕ → Bool) (q : FadeQueue) : List CmdResult :=
  q.map (fun p => tickCmdFor fail (stepFade p.2))

/-- The fade state after `n` loop iterations (ignoring removal). -/
def fadeAfter (f : Fade) (n : ℕ) : Fade :=
  stepFade^[n] f

/-- The queue after `n` loop iterations. -/
def queueAfter (q : FadeQueue) (n : ℕ) : FadeQueue :=
  tickQueue^[n] q

/-- The role tracker fields of the `Fader` object: the set of floating
window ids, the `bottom` window kept dim under a floating window, the
previously active window, and the currently active window. -/
structure RoleState where
  floating_windows : Finset ℕ
  bottom_win : Option Window
  old_win : Option Window
  active_win : Option Window
deriving DecidableEq

/-- A call the event handlers make into the fade engine or the port:
either `add_fade(win, start, target, duration)` or a direct
`change_opacity(win, value)`. -/
inductive Call where
  | fade (w : Window) (start target duration : ℚ)
  | setOp (w : Window) (v : ℚ)
deriving DecidableEq, Repr

/-- Handler `on_window_focus(ipc, e)`: returns without effect when no active
window is recorded or the container already is the active window;
otherwise dispatches on the types of the outgoing and incoming windows
and finally sets `active_win` to the incoming container.  The returned
list records the `add_fade` calls in program order. -/
def on_window_focus (s : RoleState) (c : Window) : RoleState × List Call :=
  match s.active_win with
  | none => (s, [])
  | some old =>
    if old.id = c.id then (s, [])
    else if old.type = "con" ∧ c.type = "con" then
      ({ s with active_win := some c },
       [Call.fade c CON_INAC CON_AC CON_IN, Call.fade old CON_AC CON_INAC CON_OUT])
    else if old.type = "con" ∧ c.type ≠ "con" then
      ({ s with bottom_win := some old, active_win := some c },
       [Call.fade c FLOAT_INAC FLOAT_AC FLOAT_IN, Call.fade old CON_AC BOT_INAC BOT_OUT])
    else if old.type ≠ "con" ∧ c.type = "con" then
      match s.bottom_win with
      | none =>
        ({ s with active_win := some c },
         [Call.fade old FLOAT_AC FLOAT_INAC FLOAT_BOT_OUT,
          Call.fade c CON_INAC CON_AC CON_IN])
      | some b =>
        if c.id ≠ b.id then
          ({ s with bottom_win := some c, active_win := some c },
           [Call.fade old FLOAT_AC FLOAT_INAC FLOAT_BOT_OUT,
            Call.fade b BOT_INAC CON_INAC BOT_SWITCH_OUT,
            Call.fade c CON_INAC CON_AC BOT_SWITCH_IN])
        else
          ({ s with active_win := some c },
           [Call.fade old FLOAT_AC FLOAT_INAC FLOAT_BOT_OUT,
            Call.fade b BOT_INAC CON_AC BOT_IN])
    else
      ({ s with active_win := some c },
       [Call.fade old FLOAT_AC FLOAT_INAC FLOAT_OUT,
        Call.fade c FLOAT_INAC FLOAT_AC FLOAT_IN])

/-- Handler `on_window_new(ipc, e)`: dim the active window to its inactive
baseline; flatten an existing bottom to tiled-inactive, else adopt a
tiled active window as the new bottom and dim it; set the new container
to active opacity; shift `active_win` into `old_win` and make the new
container active. -/
def on_window_new (s : RoleState) (c : Window) : RoleState × List Call :=
  let calls1 : List Call :=
    match s.active_win with
    | none => []
    | some a =>
      if a.type = "con" then [Call.setOp a CON_INAC] else [Call.setOp a FLOAT_INAC]
  let step2 : Option Window × List Call :=
    match s.bottom_win with
    | some b => (some b, [Call.setOp b CON_INAC])
    | none =>
      match s.active_win with
      | some a => if a.type = "con" then (some a, [Call.setOp a CON_INAC]) else (none, [])
      | none => (none, [])
  ({ s with bottom_win := step2.1, old_win := s.active_win, active_win := some c },
   calls1 ++ step2.2 ++ [Call.setOp c CON_AC])

/-- Handler `on_window_floating(ipc, e)`: toggle membership of the container in
`floating_windows` and set opacities directly.  The handler
dereferences `self.active_win.id` unguarded, so an event arriving while
no active window was ever recorded raises; that run is modelled as
`none`. -/
def on_window_floating (s : RoleState) (c : Window) : Option (RoleState × List Call) :=
  let cid := c.id
  if cid ∉ s.floating_windows then
    let fl := insert cid s.floating_windows
    match s.active_win with
    | none => none
    | some a =>
      if a.id ≠ cid then
        some ({ s with floating_windows := fl, active_win := some c },
              [Call.setOp c FLOAT_INAC])
      else
        match s.old_win, s.bottom_win with
        | some o, some b =>
          let bot : Window := if o.type = "con" then o else b
          some ({ s with floating_windows := fl, bottom_win := some bot,
                         active_win := some c },
                [Call.setOp bot BOT_INAC, Call.setOp c FLOAT_AC])
        | _, _ =>
          some ({ s with floating_windows := fl, active_win := some c },
                [Call.setOp c FLOAT_AC])
  else
    let fl := s.floating_windows.erase cid
    match s.active_win with
    | none => none
    | some a =>
      if a.id ≠ cid then
        some ({ s with floating_windows := fl, active_win := some c },
              [Call.setOp c CON_INAC])
      else
        let calls1 : List Call :=
          match s.old_win with
          | some o => if o.type = "con" then [Call.setOp o CON_INAC] else []
          | none => []
        some ({ s with floating_windows := fl, active_win := some c },
              calls1 ++ [Call.setOp a CON_AC])

/-- The three events the script subscribes to. -/
inductive SEvent where
  | focus (c : Window)
  | newWin (c : Window)
  | floating (c : Window)
deriving DecidableEq, Repr

/-- Dispatch one event to its handler. -/
def stepEvent (s : RoleState) : SEvent → Option (RoleState × List Call)
  | SEvent.focus c => some (on_window_focus s c)
  | SEvent.newWin c => some (on_window_new s c)
  | SEvent.floating c => on_window_floating s c

/-- Process a sequence of events in arrival order; `none` when a
handler raised. -/
def runEvents : RoleState → List SEvent → Option RoleState
  | s, [] => some s
  | s, e :: es =>
    match stepEvent s e with
    | none => none
    | some r => runEvents r.1 es

/-- The body of `init_existing_windows` for one tree descendant:
windows whose type is neither `"con"` nor `"floating_con"` are skipped;
floating ids are recorded; the focused window becomes active; every
window gets its baseline opacity directly. -/
def initWindow (s : RoleState) (w : Window) : RoleState × List Call :=
  if w.type ≠ "con" ∧ w.type ≠ "floating_con" then (s, [])
  else if w.floating then
    let s1 := { s with floating_windows := insert w.id s.floating_windows }
    if w.focused then ({ s1 with active_win := some w }, [Call.setOp w FLOAT_AC])
    else (s1, [Call.setOp w FLOAT_INAC])
  else
    if w.focused then ({ s with active_win := some w }, [Call.setOp w CON_AC])
    else (s, [Call.setOp w CON_INAC])

/-- Method `init_existing_windows`: fold `initWindow` over the tree snapshot. -/
def init_existing_windows (s : RoleState) (tree : List Window) :
    RoleState × List Call :=
  tree.foldl (fun acc w =>
    let r := initWindow acc.1 w
    (r.1, acc.2 ++ r.2)) (s, [])

/-- The role state right after `Fader.__init__` sets its fields and
before the tree walk: everything empty. -/
def initialState : RoleState :=
  { floating_windows := ∅, bottom_win := none, old_win := none, active_win := none }

/-- Interpret one recorded call against the fade engine and port. -/
def runCall (fail : ℕ → Bool) (q : FadeQueue) : Call → FadeQueue × List CmdResult
  | Call.fade w s t d => add_fade fail q (some w) s t d
  | Call.setOp w v => (q, [change_opacity fail w v])

/-- Interpret a list of recorded calls in order. -/
def runCalls (fail : ℕ → Bool) : FadeQueue → List Call → FadeQueue × List CmdResult
  | q, [] => (q, [])
  | q, c :: cs =>
    let r := runCall fail q c
    let r2 := runCalls fail r.1 cs
    (r2.1, r.2 ++ r2.2)

/-- The claimed invariant on the role tracker: `bottom_win` is unset or
refers to a tiled (`"con"`) window. -/
def BottomTiled (s : RoleState) : Prop :=
  ∀ b, s.bottom_win = some b → b.type = "con"

/-- A concrete tiled window, used to instantiate theorems. -/
def wTileA : Window := ⟨1, "con", false, false⟩

/-- A second concrete tiled window. -/
def wTileB : Window := ⟨2, "con", false, false⟩

/-- A concrete floating window. -/
def wFloatF : Window := ⟨3, "floating_con", true, false⟩

/-- A concrete upward fade. -/
def fadeUp : Fade := ⟨1 / 2, 1 / 10, 1, wTileA⟩

/-- A concrete downward fade. -/
def fadeDown : Fade := ⟨1, -(1 / 10), 1 / 2, wTileA⟩

/-! ### Helper lemmas about the fade engine -/

theorem fadeAfter_zero (f : Fade) : fadeAfter f 0 = f := rfl

theorem fadeAfter_succ (f : Fade) (n : ℕ) :
    fadeAfter f (n + 1) = stepFade (fadeAfter f n) :=
  Function.iterate_succ_apply' stepFade n f

theorem fadeAfter_change (f : Fade) (n : ℕ) :
    (fadeAfter f n).change = f.change := by
  induction n with
  | zero => rfl
  | succ n ih => rw [fadeAfter_succ]; simpa [stepFade] using ih

theorem fadeAfter_target (f : Fade) (n : ℕ) :
    (fadeAfter f n).target = f.target := by
  induction n with
  | zero => rfl
  | succ n ih => rw [fadeAfter_succ]; simpa [stepFade] using ih

theorem fadeAfter_win (f : Fade) (n : ℕ) :
    (fadeAfter f n).win = f.win := by
  induction n with
  | zero => rfl
  | succ n ih => rw [fadeAfter_succ]; simpa [stepFade] using ih

theorem fadeAfter_opacity (f : Fade) (n : ℕ) :
    (fadeAfter f n).opacity = f.opacity + n * f.change := by
  induction n with
  | zero => simp [fadeAfter]
  | succ n ih =>
    rw [fadeAfter_succ]
    simp only [stepFade, ih, fadeAfter_change]
    push_cast
    ring

theorem fadeDone_iff (f : Fade) :
    fadeDone f = true ↔
      (0 < f.change ∧ f.target ≤ f.opacity) ∨
        (f.change < 0 ∧ f.opacity ≤ f.target) := by
  simp [fadeDone]

theorem queueAfter_zero (q : FadeQueue) : queueAfter q 0 = q := rfl

theorem queueAfter_succ (q : FadeQueue) (n : ℕ) :
    queueAfter q (n + 1) = tickQueue (queueAfter q n) :=
  Function.iterate_succ_apply' tickQueue n q

theorem tickQueue_singleton (k : ℕ) (f : Fade) :
    tickQueue [(k, f)] =
      if fadeDone (stepFade f) then [] else [(k, stepFade f)] := by
  simp only [tickQueue, List.map_cons, List.map_nil, List.filter]
  rcases h : fadeDone (stepFade f) <;> simp [h]

theorem tickQueue_append (q1 q2 : FadeQueue) :
    tickQueue (q1 ++ q2) = tickQueue q1 ++ tickQueue q2 := by
  simp [tickQueue]

theorem dictGet_dictSet (q : FadeQueue) (k : ℕ) (f : Fade) :
    dictGet (dictSet q k f) k = some f := by
  induction q with
  | nil => simp [dictSet, dictGet]
  | cons p ps ih =>
    by_cases h : p.1 = k
    · simp [dictSet, h, dictGet]
    · simp only [dictSet, h, if_false, dictGet, List.find?]
      simp only [dictGet] at ih
      simpa [h] using ih

theorem dictSet_keys_of_mem (q : FadeQueue) (k : ℕ) (f : Fade)
    (h : k ∈ q.map Prod.fst) :
    (dictSet q k f).map Prod.fst = q.map Prod.fst := by
  induction q with
  | nil => simp at h
  | cons p ps ih =>
    by_cases hp : p.1 = k
    · simp [dictSet, hp]
    · have : k ∈ ps.map Prod.fst := by
        rcases List.mem_map.mp h with ⟨x, hx, hk⟩
        rcases List.mem_cons.mp hx with h1 | h1
        · exact absurd (h1 ▸ hk) hp
        · exact List.mem_map.mpr ⟨x, h1, hk⟩
      simp [dictSet, hp, ih this]

theorem dictSet_keys_of_not_mem (q : FadeQueue) (k : ℕ) (f : Fade)
    (h : k ∉ q.map Prod.fst) :
    (dictSet q k f).map Prod.fst = q.map Prod.fst ++ [k] := by
  induction q with
  | nil => simp [dictSet]
  | cons p ps ih =>
    have hp : p.1 ≠ k := fun hc => h (by simp [hc])
    have hps : k ∉ ps.map Prod.fst := fun hc => h (by simp [hc])
    simp [dictSet, hp, ih hps]

theorem dictSet_keys_nodup (q : FadeQueue) (k : ℕ) (f : Fade)
    (hq : (q.map Prod.fst).Nodup) :
    ((dictSet q k f).map Prod.fst).Nodup := by
  by_cases h : k ∈ q.map Prod.fst
  · rw [dictSet_keys_of_mem q k f h]; exact hq
  · rw [dictSet_keys_of_not_mem q k f h]
    refine List.Nodup.append hq (List.nodup_singleton k) ?_
    intro a ha hk
    rw [List.mem_singleton] at hk
    exact h (hk ▸ ha)

theorem dictSet_filter_self (q : FadeQueue) (k : ℕ) (f : Fade)
    (hq : (q.map Prod.fst).Nodup) :
    (dictSet q k f).filter (fun p => p.1 = k) = [(k, f)] := by
  induction q with
  | nil => simp [dictSet]
  | cons p ps ih =>
    have hq' : p.1 ∉ ps.map Prod.fst ∧ (ps.map Prod.fst).Nodup := by
      rw [List.map_cons, List.nodup_cons] at hq
      exact hq
    obtain ⟨hp, hps⟩ := hq'
    by_cases h : p.1 = k
    · have : ps.filter (fun p => p.1 = k) = [] := by
        rw [List.filter_eq_nil_iff]
        intro a ha
        have : a.1 ∈ ps.map Prod.fst := List.mem_map.mpr ⟨a, ha, rfl⟩
        simp only [decide_eq_true_eq]
        intro hak
        exact hp (by rw [h, ← hak]; exact this)
      simp [dictSet, h, this]
    · simp [dictSet, h, ih hps]

/-! ### C6, C10, C7, C1, C5 -/

/-- C6: a `request_fade` call with zero duration or equal start and
target issues exactly one immediate opacity command carrying the target
value and leaves the in-flight collection unchanged. -/
theorem add_fade_immediate (fail : ℕ → Bool) (q : FadeQueue) (w : Window)
    (s t d : ℚ) (h : d = 0 ∨ s = t) :
    add_fade fail q (some w) s t d = (q, [change_opacity fail w t]) ∧
    change_opacity (fun _ => false) w t = CmdResult.ok ⟨w.id, t⟩ := by
  constructor
  · simp [add_fade, h]
  · rfl

/-- Witness for `add_fade_immediate` at a concrete zero-duration call. -/
theorem add_fade_immediate_witness :
    ((0 : ℚ) = 0 ∨ (1 / 2 : ℚ) = 1) ∧
    (add_fade (fun _ => false) [] (some wTileA) (1 / 2) 1 0 =
      ([], [change_opacity (fun _ => false) wTileA 1]) ∧
     change_opacity (fun _ => false) wTileA 1 = CmdResult.ok ⟨wTileA.id, 1⟩) :=
  ⟨Or.inl rfl, add_fade_immediate (fun _ => false) [] wTileA (1 / 2) 1 0 (Or.inl rfl)⟩

/-- C10: a focus event arriving while no active window was ever
recorded is a complete no-op: no calls are made, the role state is
untouched, and interpreting the (empty) call list leaves any fade queue
unchanged. -/
theorem focus_no_active_noop (s : RoleState) (c : Window) (q : FadeQueue)
    (fail : ℕ → Bool) (h : s.active_win = none) :
    on_window_focus s c = (s, []) ∧
    runCalls fail q (on_window_focus s c).2 = (q, []) := by
  have h1 : on_window_focus s c = (s, []) := by
    simp [on_window_focus, h]
  exact ⟨h1, by simp [h1, runCalls]⟩

/-- Witness for `focus_no_active_noop` on the empty initial state. -/
theorem focus_no_active_noop_witness :
    initialState.active_win = none ∧
    (on_window_focus initialState wTileA = (initialState, []) ∧
     runCalls (fun _ => false) [] (on_window_focus initialState wTileA).2 =
       ([], [])) :=
  ⟨rfl, focus_no_active_noop initialState wTileA [] (fun _ => false) rfl⟩

/-- C7: a focus change between two distinct tiled windows issues
exactly the two fade requests `fade(new, 0.88 → 1.0, CON_IN)` then
`fade(old, 1.0 → 0.88, CON_OUT)`, and afterwards the incoming window is
active, every other role field unchanged. -/
theorem focus_tiled_to_tiled (s : RoleState) (old c : Window)
    (hact : s.active_win = some old) (hold : old.type = "con")
    (hc : c.type = "con") (hid : old.id ≠ c.id) :
    on_window_focus s c =
      ({ s with active_win := some c },
       [Call.fade c CON_INAC CON_AC CON_IN,
        Call.fade old CON_AC CON_INAC CON_OUT]) ∧
    CON_INAC = 88 / 100 ∧ CON_AC = 1 := by
  refine ⟨?_, rfl, rfl⟩
  simp [on_window_focus, hact, hold, hc, hid]

/-- Witness for `focus_tiled_to_tiled`: tiled A active, focus tiled B. -/
theorem focus_tiled_to_tiled_witness :
    ({ initialState with active_win := some wTileA } : RoleState).active_win =
        some wTileA ∧
    wTileA.type = "con" ∧ wTileB.type = "con" ∧ wTileA.id ≠ wTileB.id ∧
    (on_window_focus { initialState with active_win := some wTileA } wTileB =
      ({ initialState with active_win := some wTileB },
       [Call.fade wTileB CON_INAC CON_AC CON_IN,
        Call.fade wTileA CON_AC CON_INAC CON_OUT]) ∧
     CON_INAC = 88 / 100 ∧ CON_AC = 1) :=
  ⟨rfl, rfl, rfl, by decide,
   focus_tiled_to_tiled { initialState with active_win := some wTileA }
     wTileA wTileB rfl rfl rfl (by decide)⟩

/-- C1: on a focus change from a floating window to a tiled window the
handler first requests `fade(old, FLOAT_AC → FLOAT_INAC, FLOAT_BOT_OUT)`
and then: with no bottom set, `fade(new, CON_INAC → CON_AC, CON_IN)`;
with a bottom different from the incoming window, the switch pair
`fade(bottom, BOT_INAC → CON_INAC, BOT_SWITCH_OUT)` and
`fade(new, CON_INAC → CON_AC, BOT_SWITCH_IN)` with `bottom`
reassigned to the incoming window; with the incoming window equal to
the bottom, only `fade(bottom, BOT_INAC → CON_AC, BOT_IN)`.  In every
case the incoming window becomes active. -/
theorem focus_floating_to_tiled (s : RoleState) (old c : Window)
    (hact : s.active_win = some old) (hold : old.type ≠ "con")
    (hc : c.type = "con") (hid : old.id ≠ c.id) :
    (on_window_focus s c).1.active_win = some c ∧
    (s.bottom_win = none →
      (on_window_focus s c).2 =
        [Call.fade old FLOAT_AC FLOAT_INAC FLOAT_BOT_OUT,
         Call.fade c CON_INAC CON_AC CON_IN] ∧
      (on_window_focus s c).1.bottom_win = none) ∧
    (∀ b, s.bottom_win = some b → c.id ≠ b.id →
      (on_window_focus s c).2 =
        [Call.fade old FLOAT_AC FLOAT_INAC FLOAT_BOT_OUT,
         Call.fade b BOT_INAC CON_INAC BOT_SWITCH_OUT,
         Call.fade c CON_INAC CON_AC BOT_SWITCH_IN] ∧
      (on_window_focus s c).1.bottom_win = some c) ∧
    (∀ b, s.bottom_win = some b → c.id = b.id →
      (on_window_focus s c).2 =
        [Call.fade old FLOAT_AC FLOAT_INAC FLOAT_BOT_OUT,
         Call.fade b BOT_INAC CON_AC BOT_IN] ∧
      (on_window_focus s c).1.bottom_win = some b) := by
  refine ⟨?_, ?_, ?_, ?_⟩
  · rcases hbot : s.bottom_win with _ | b
    · simp [on_window_focus, hact, hold, hc, hid, hbot]
    · by_cases hcb : c.id = b.id
      · have hob : old.id ≠ b.id := fun h => hid (hcb ▸ h)
        simp [on_window_focus, hact, hold, hc, hid, hbot, hcb, hob]
      · simp [on_window_focus, hact, hold, hc, hid, hbot, hcb]
  · intro hbot
    constructor <;> simp [on_window_focus, hact, hold, hc, hid, hbot]
  · intro b hbot hcb
    constructor <;> simp [on_window_focus, hact, hold, hc, hid, hbot, hcb]
  · intro b hbot hcb
    have hob : old.id ≠ b.id := fun h => hid (hcb ▸ h)
    constructor <;>
      simp [on_window_focus, hact, hold, hc, hid, hbot, hcb, hob]

/-- Witness for `focus_floating_to_tiled`: floating F active with
bottom A, focus returns to A (the bottom re-promotion scenario). -/
theorem focus_floating_to_tiled_witness :
    ({ initialState with active_win := some wFloatF,
                         bottom_win := some wTileA } : RoleState).active_win =
        some wFloatF ∧
    wFloatF.type ≠ "con" ∧ wTileA.type = "con" ∧ wFloatF.id ≠ wTileA.id ∧
    ({ initialState with active_win := some wFloatF,
                         bottom_win := some wTileA } : RoleState).bottom_win =
        some wTileA ∧
    wTileA.id = wTileA.id ∧
    ((on_window_focus
        { initialState with active_win := some wFloatF,
                            bottom_win := some wTileA } wTileA).2 =
      [Call.fade wFloatF FLOAT_AC FLOAT_INAC FLOAT_BOT_OUT,
       Call.fade wTileA BOT_INAC CON_AC BOT_IN] ∧
     (on_window_focus
        { initialState with active_win := some wFloatF,
                            bottom_win := some wTileA } wTileA).1.bottom_win =
       some wTileA) :=
  ⟨rfl, by decide, rfl, by decide, rfl, rfl,
   (focus_floating_to_tiled
      { initialState with active_win := some wFloatF, bottom_win := some wTileA }
      wFloatF wTileA rfl (by decide) rfl (by decide)).2.2.2 wTileA rfl rfl⟩

/-- C5: a floating toggle for the active window becoming floating, with
a tiled previous window and a bottom window both present, reassigns
`bottom` to the previous window, dims it directly to `BOT_INAC`, sets
the toggled window directly to `FLOAT_AC` (no fade requests), and makes
the toggled window active. -/
theorem floating_toggle_while_active (s : RoleState) (c a p b : Window)
    (hnf : c.id ∉ s.floating_windows) (hact : s.active_win = some a)
    (haid : a.id = c.id) (hold : s.old_win = some p)
    (hbot : s.bottom_win = some b) (hp : p.type = "con") :
    on_window_floating s c =
      some ({ s with floating_windows := insert c.id s.floating_windows,
                     bottom_win := some p, active_win := some c },
            [Call.setOp p BOT_INAC, Call.setOp c FLOAT_AC]) := by
  simp [on_window_floating, hnf, hact, haid, hold, hbot, hp]

/-- Witness for `floating_toggle_while_active`: tiled B active with
previous tiled A and bottom A, then B toggles to floating. -/
theorem floating_toggle_while_active_witness :
    wTileB.id ∉ (initialState.floating_windows : Finset ℕ) ∧
    ({ initialState with active_win := some wTileB, old_win := some wTileA,
                         bottom_win := some wTileA } : RoleState).active_win =
      some wTileB ∧
    wTileB.id = wTileB.id ∧ wTileA.type = "con" ∧
    on_window_floating
        { initialState with active_win := some wTileB, old_win := some wTileA,
                            bottom_win := some wTileA } wTileB =
      some ({ initialState with
                floating_windows := insert wTileB.id initialState.floating_windows,
                bottom_win := some wTileA, old_win := some wTileA,
                active_win := some wTileB },
            [Call.setOp wTileA BOT_INAC, Call.setOp wTileB FLOAT_AC]) :=
  ⟨by decide, rfl, rfl, rfl,
   floating_toggle_while_active
     { initialState with active_win := some wTileB, old_win := some wTileA,
                         bottom_win := some wTileA }
     wTileB wTileB wTileA wTileA (by decide) rfl rfl rfl rfl rfl⟩

/-- C3: with well-formed (duplicate-free) queue keys, two consecutive
`add_fade` calls for the same window leave exactly one queue entry for
that window id, whose fields come from the second call; key uniqueness
is preserved, so two fades are never queued for one window. -/
theorem single_fade_per_window (fail : ℕ → Bool) (q : FadeQueue) (w : Window)
    (s1 t1 d1 s2 t2 d2 : ℚ) (hq : (q.map Prod.fst).Nodup)
    (h1 : ¬(d1 = 0 ∨ s1 = t1)) (h2 : ¬(d2 = 0 ∨ s2 = t2)) :
    ((add_fade fail (add_fade fail q (some w) s1 t1 d1).1 (some w) s2 t2 d2).1.filter
        (fun p => p.1 = w.id) = [(w.id, mkFade w s2 t2 d2)]) ∧
    dictGet (add_fade fail (add_fade fail q (some w) s1 t1 d1).1 (some w) s2 t2 d2).1
        w.id = some (mkFade w s2 t2 d2) ∧
    (((add_fade fail (add_fade fail q (some w) s1 t1 d1).1 (some w) s2 t2 d2).1.map
        Prod.fst).Nodup) := by
  have e1 : (add_fade fail q (some w) s1 t1 d1).1 =
      dictSet q w.id (mkFade w s1 t1 d1) := by
    simp [add_fade, h1]
  have e2 : (add_fade fail (add_fade fail q (some w) s1 t1 d1).1
      (some w) s2 t2 d2).1 =
      dictSet (dictSet q w.id (mkFade w s1 t1 d1)) w.id (mkFade w s2 t2 d2) := by
    rw [e1]
    simp [add_fade, h2]
  have hq1 : ((dictSet q w.id (mkFade w s1 t1 d1)).map Prod.fst).Nodup :=
    dictSet_keys_nodup q w.id (mkFade w s1 t1 d1) hq
  refine ⟨?_, ?_, ?_⟩
  · rw [e2]
    exact dictSet_filter_self _ w.id _ hq1
  · rw [e2]
    exact dictGet_dictSet _ w.id _
  · rw [e2]
    exact dictSet_keys_nodup _ w.id _ hq1

/-- Witness for `single_fade_per_window`: two fades requested for
window A on the empty queue. -/
theorem single_fade_per_window_witness :
    (([] : FadeQueue).map Prod.fst).Nodup ∧
    ¬((CON_IN : ℚ) = 0 ∨ (CON_INAC : ℚ) = CON_AC) ∧
    ¬((CON_OUT : ℚ) = 0 ∨ (CON_AC : ℚ) = CON_INAC) ∧
    (((add_fade (fun _ => false)
          (add_fade (fun _ => false) [] (some wTileA) CON_INAC CON_AC CON_IN).1
          (some wTileA) CON_AC CON_INAC CON_OUT).1.filter
        (fun p => p.1 = wTileA.id) =
          [(wTileA.id, mkFade wTileA CON_AC CON_INAC CON_OUT)]) ∧
     dictGet (add_fade (fun _ => false)
          (add_fade (fun _ => false) [] (some wTileA) CON_INAC CON_AC CON_IN).1
          (some wTileA) CON_AC CON_INAC CON_OUT).1 wTileA.id =
        some (mkFade wTileA CON_AC CON_INAC CON_OUT) ∧
     (((add_fade (fun _ => false)
          (add_fade (fun _ => false) [] (some wTileA) CON_INAC CON_AC CON_IN).1
          (some wTileA) CON_AC CON_INAC CON_OUT).1.map Prod.fst).Nodup)) :=
  ⟨List.nodup_nil, by norm_num [CON_IN, CON_INAC, CON_AC],
   by norm_num [CON_OUT, CON_INAC, CON_AC, FADE_TIME],
   single_fade_per_window (fun _ => false) [] wTileA CON_INAC CON_AC CON_IN
     CON_AC CON_INAC CON_OUT List.nodup_nil
     (by norm_num [CON_IN, CON_INAC, CON_AC])
     (by norm_num [CON_OUT, CON_INAC, CON_AC, FADE_TIME])⟩

/-- C2: for a fade with positive rate the opacity is non-decreasing
tick over tick; some tick completes it, every earlier tick issues the
running opacity, which stays strictly below the target, and the
completing tick issues exactly the target.  Symmetrically for a
negative rate. -/
theorem fade_monotone_exact_finish (f : Fade) :
    (0 < f.change →
      (∀ n, (fadeAfter f n).opacity ≤ (fadeAfter f (n + 1)).opacity) ∧
      ∃ N, fadeDone (fadeAfter f (N + 1)) = true ∧
        tickCmdVal (fadeAfter f (N + 1)) = f.target ∧
        ∀ k, k < N → fadeDone (fadeAfter f (k + 1)) = false ∧
          tickCmdVal (fadeAfter f (k + 1)) = (fadeAfter f (k + 1)).opacity ∧
          (fadeAfter f (k + 1)).opacity < f.target) ∧
    (f.change < 0 →
      (∀ n, (fadeAfter f (n + 1)).opacity ≤ (fadeAfter f n).opacity) ∧
      ∃ N, fadeDone (fadeAfter f (N + 1)) = true ∧
        tickCmdVal (fadeAfter f (N + 1)) = f.target ∧
        ∀ k, k < N → fadeDone (fadeAfter f (k + 1)) = false ∧
          tickCmdVal (fadeAfter f (k + 1)) = (fadeAfter f (k + 1)).opacity ∧
          f.target < (fadeAfter f (k + 1)).opacity) := by
  constructor
  · intro hc
    constructor
    · intro n
      rw [fadeAfter_opacity, fadeAfter_opacity]
      push_cast
      nlinarith
    · have hex : ∃ n, fadeDone (fadeAfter f (n + 1)) = true := by
        obtain ⟨m, hm⟩ := exists_nat_ge ((f.target - f.opacity) / f.change)
        refine ⟨m, ?_⟩
        rw [fadeDone_iff, fadeAfter_opacity, fadeAfter_change, fadeAfter_target]
        left
        refine ⟨hc, ?_⟩
        rw [div_le_iff₀ hc] at hm
        push_cast
        nlinarith
      refine ⟨Nat.find hex, Nat.find_spec hex, ?_, ?_⟩
      · rw [tickCmdVal, if_pos (Nat.find_spec hex), fadeAfter_target]
      · intro k hk
        have hnd : fadeDone (fadeAfter f (k + 1)) = false :=
          Bool.eq_false_iff.mpr (Nat.find_min hex hk)
        refine ⟨hnd, by rw [tickCmdVal, hnd]; simp, ?_⟩
        have hnd' := hnd
        rw [Bool.eq_false_iff, ne_eq, fadeDone_iff, fadeAfter_change,
          fadeAfter_target] at hnd'
        push_neg at hnd'
        exact hnd'.1 hc
  · intro hc
    constructor
    · intro n
      rw [fadeAfter_opacity, fadeAfter_opacity]
      push_cast
      nlinarith
    · have hex : ∃ n, fadeDone (fadeAfter f (n + 1)) = true := by
        obtain ⟨m, hm⟩ := exists_nat_ge ((f.target - f.opacity) / f.change)
        refine ⟨m, ?_⟩
        rw [fadeDone_iff, fadeAfter_opacity, fadeAfter_change, fadeAfter_target]
        right
        refine ⟨hc, ?_⟩
        rw [div_le_iff_of_neg hc] at hm
        push_cast
        nlinarith
      refine ⟨Nat.find hex, Nat.find_spec hex, ?_, ?_⟩
      · rw [tickCmdVal, if_pos (Nat.find_spec hex), fadeAfter_target]
      · intro k hk
        have hnd : fadeDone (fadeAfter f (k + 1)) = false :=
          Bool.eq_false_iff.mpr (Nat.find_min hex hk)
        refine ⟨hnd, by rw [tickCmdVal, hnd]; simp, ?_⟩
        have hnd' := hnd
        rw [Bool.eq_false_iff, ne_eq, fadeDone_iff, fadeAfter_change,
          fadeAfter_target] at hnd'
        push_neg at hnd'
        exact hnd'.2 hc

/-- Witness for `fade_monotone_exact_finish` at a concrete upward and a
concrete downward fade. -/
theorem fade_monotone_exact_finish_witness :
    (0 : ℚ) < fadeUp.change ∧ fadeDown.change < 0 ∧
    ((∀ n, (fadeAfter fadeUp n).opacity ≤ (fadeAfter fadeUp (n + 1)).opacity) ∧
      ∃ N, fadeDone (fadeAfter fadeUp (N + 1)) = true ∧
        tickCmdVal (fadeAfter fadeUp (N + 1)) = fadeUp.target ∧
        ∀ k, k < N → fadeDone (fadeAfter fadeUp (k + 1)) = false ∧
          tickCmdVal (fadeAfter fadeUp (k + 1)) = (fadeAfter fadeUp (k + 1)).opacity ∧
          (fadeAfter fadeUp (k + 1)).opacity < fadeUp.target) ∧
    ((∀ n, (fadeAfter fadeDown (n + 1)).opacity ≤ (fadeAfter fadeDown n).opacity) ∧
      ∃ N, fadeDone (fadeAfter fadeDown (N + 1)) = true ∧
        tickCmdVal (fadeAfter fadeDown (N + 1)) = fadeDown.target ∧
        ∀ k, k < N → fadeDone (fadeAfter fadeDown (k + 1)) = false ∧
          tickCmdVal (fadeAfter fadeDown (k + 1)) =
            (fadeAfter fadeDown (k + 1)).opacity ∧
          fadeDown.target < (fadeAfter fadeDown (k + 1)).opacity) :=
  ⟨by norm_num [fadeUp], by norm_num [fadeDown],
   (fade_monotone_exact_finish fadeUp).1 (by norm_num [fadeUp]),
   (fade_monotone_exact_finish fadeDown).2 (by norm_num [fadeDown])⟩

/-- A fade built by `add_fade` is complete after `m` ticks exactly when
`m` has reached `duration / FRAME_T`. -/
theorem fadeDone_mkFade_iff (w : Window) (s t d : ℚ) (hd : 0 < d)
    (hst : s ≠ t) (m : ℕ) :
    fadeDone (fadeAfter (mkFade w s t d) m) = true ↔
      d / FRAME_T ≤ (m : ℚ) := by
  have hT : (0 : ℚ) < FRAME_T := by norm_num [FRAME_T]
  have e : s + (m : ℚ) * (FRAME_T / d * (t - s)) - t =
      ((m : ℚ) * FRAME_T - d) * (t - s) / d := by
    field_simp
    ring
  rw [fadeDone_iff, fadeAfter_opacity, fadeAfter_change, fadeAfter_target]
  simp only [mkFade]
  rcases lt_or_gt_of_ne hst with hlt | hgt
  · have hc : 0 < FRAME_T / d * (t - s) :=
      mul_pos (div_pos hT hd) (by linarith)
    constructor
    · rintro (⟨_, h⟩ | ⟨hneg, _⟩)
      · rw [div_le_iff₀ hT]
        have h0 : 0 ≤ ((m : ℚ) * FRAME_T - d) * (t - s) / d := by linarith
        have h1 : 0 ≤ ((m : ℚ) * FRAME_T - d) * (t - s) := by
          by_contra hneg
          push_neg at hneg
          have := div_neg_of_neg_of_pos hneg hd
          linarith
        nlinarith
      · linarith
    · intro h
      rw [div_le_iff₀ hT] at h
      refine Or.inl ⟨hc, ?_⟩
      have h1 : 0 ≤ ((m : ℚ) * FRAME_T - d) * (t - s) :=
        mul_nonneg (by linarith) (by linarith)
      have h0 : 0 ≤ ((m : ℚ) * FRAME_T - d) * (t - s) / d :=
        div_nonneg h1 (le_of_lt hd)
      linarith
  · have hc : FRAME_T / d * (t - s) < 0 :=
      mul_neg_of_pos_of_neg (div_pos hT hd) (by linarith)
    constructor
    · rintro (⟨hpos, _⟩ | ⟨_, h⟩)
      · linarith
      · rw [div_le_iff₀ hT]
        have h0 : ((m : ℚ) * FRAME_T - d) * (t - s) / d ≤ 0 := by linarith
        have h1 : ((m : ℚ) * FRAME_T - d) * (t - s) ≤ 0 := by
          by_contra hpos
          push_neg at hpos
          have := div_pos hpos hd
          linarith
        nlinarith
    · intro h
      rw [div_le_iff₀ hT] at h
      refine Or.inr ⟨hc, ?_⟩
      have h1 : ((m : ℚ) * FRAME_T - d) * (t - s) ≤ 0 :=
        mul_nonpos_of_nonneg_of_nonpos (by linarith) (by linarith)
      have h0 : ((m : ℚ) * FRAME_T - d) * (t - s) / d ≤ 0 :=
        div_nonpos_of_nonpos_of_nonneg h1 (le_of_lt hd)
      linarith

/-- C4: a fade created with positive duration and distinct start and
target completes — and its queue entry is removed — after exactly
`⌈duration / FRAME_T⌉` ticks, never earlier; one tick of the loop
advances its entry independently of whatever else is queued. -/
theorem fade_completes_in_ceil_ticks (w : Window) (s t d : ℚ)
    (hd : 0 < d) (hst : s ≠ t) :
    fadeDone (fadeAfter (mkFade w s t d) (Nat.ceil (d / FRAME_T))) = true ∧
    (∀ m, m < Nat.ceil (d / FRAME_T) →
      fadeDone (fadeAfter (mkFade w s t d) m) = false) ∧
    queueAfter [(w.id, mkFade w s t d)] (Nat.ceil (d / FRAME_T)) = [] ∧
    (∀ m, m < Nat.ceil (d / FRAME_T) →
      queueAfter [(w.id, mkFade w s t d)] m =
        [(w.id, fadeAfter (mkFade w s t d) m)]) ∧
    (∀ q1 q2 : FadeQueue,
      tickQueue (q1 ++ (w.id, mkFade w s t d) :: q2) =
        tickQueue q1 ++ tickQueue [(w.id, mkFade w s t d)] ++ tickQueue q2) := by
  have hT : (0 : ℚ) < FRAME_T := by norm_num [FRAME_T]
  have hpos : 0 < d / FRAME_T := div_pos hd hT
  have hdoneN :
      fadeDone (fadeAfter (mkFade w s t d) (Nat.ceil (d / FRAME_T))) = true :=
    (fadeDone_mkFade_iff w s t d hd hst _).mpr (Nat.le_ceil _)
  have hbefore : ∀ m, m < Nat.ceil (d / FRAME_T) →
      fadeDone (fadeAfter (mkFade w s t d) m) = false := by
    intro m hm
    rw [Bool.eq_false_iff, ne_eq, fadeDone_mkFade_iff w s t d hd hst m]
    exact not_le.mpr (Nat.lt_ceil.mp hm)
  have hqueue : ∀ m, m < Nat.ceil (d / FRAME_T) →
      queueAfter [(w.id, mkFade w s t d)] m =
        [(w.id, fadeAfter (mkFade w s t d) m)] := by
    intro m
    induction m with
    | zero => intro _; rfl
    | succ k ih =>
      intro hm
      rw [queueAfter_succ, ih (Nat.lt_of_succ_lt hm), tickQueue_singleton,
        ← fadeAfter_succ]
      simp [hbefore (k + 1) hm]
  refine ⟨hdoneN, hbefore, ?_, hqueue, ?_⟩
  · obtain ⟨N', hN'⟩ : ∃ N', Nat.ceil (d / FRAME_T) = N' + 1 :=
      ⟨Nat.ceil (d / FRAME_T) - 1,
        (Nat.succ_pred_eq_of_pos (Nat.ceil_pos.mpr hpos)).symm⟩
    rw [hN', queueAfter_succ, hqueue N' (by omega), tickQueue_singleton,
      ← fadeAfter_succ, ← hN']
    simp [hdoneN]
  · intro q1 q2
    have e : q1 ++ (w.id, mkFade w s t d) :: q2 =
        q1 ++ ([(w.id, mkFade w s t d)] ++ q2) := rfl
    rw [e, tickQueue_append, tickQueue_append, List.append_assoc]

/-- Witness for `fade_completes_in_ceil_ticks` at the concrete
`CON_OUT` fade of tiled window B (20 ticks). -/
theorem fade_completes_in_ceil_ticks_witness :
    (0 : ℚ) < CON_OUT ∧ CON_AC ≠ CON_INAC ∧
    (fadeDone (fadeAfter (mkFade wTileB CON_AC CON_INAC CON_OUT)
        (Nat.ceil (CON_OUT / FRAME_T))) = true ∧
     (∀ m, m < Nat.ceil (CON_OUT / FRAME_T) →
       fadeDone (fadeAfter (mkFade wTileB CON_AC CON_INAC CON_OUT) m) = false) ∧
     queueAfter [(wTileB.id, mkFade wTileB CON_AC CON_INAC CON_OUT)]
       (Nat.ceil (CON_OUT / FRAME_T)) = [] ∧
     (∀ m, m < Nat.ceil (CON_OUT / FRAME_T) →
       queueAfter [(wTileB.id, mkFade wTileB CON_AC CON_INAC CON_OUT)] m =
         [(wTileB.id, fadeAfter (mkFade wTileB CON_AC CON_INAC CON_OUT) m)]) ∧
     (∀ q1 q2 : FadeQueue,
       tickQueue (q1 ++ (wTileB.id, mkFade wTileB CON_AC CON_INAC CON_OUT) :: q2) =
         tickQueue q1 ++
           tickQueue [(wTileB.id, mkFade wTileB CON_AC CON_INAC CON_OUT)] ++
           tickQueue q2)) :=
  ⟨by norm_num [CON_OUT, FADE_TIME],
   by norm_num [CON_AC, CON_INAC],
   fade_completes_in_ceil_ticks wTileB CON_AC CON_INAC CON_OUT
     (by norm_num [CON_OUT, FADE_TIME]) (by norm_num [CON_AC, CON_INAC])⟩

/-- C9: a port failure while issuing an opacity command is caught and
logged at the call site (`change_opacity` returns a warning instead of
raising), a successful call issues the command for exactly the intended
value, every tick still makes one port call per queued fade, the call
for the `i`-th fade is untouched by failures of earlier ones, and the
same holds on every subsequent tick of the loop. -/
theorem tick_command_failures_nonfatal (fail : ℕ → Bool) (q : FadeQueue) :
    (∀ (w : Window) (v : ℚ), fail w.id = true →
      change_opacity fail w v = CmdResult.warn w.id) ∧
    (∀ (w : Window) (v : ℚ), fail w.id = false →
      change_opacity fail w v = CmdResult.ok ⟨w.id, v⟩) ∧
    (∀ n, (tickCmds fail (queueAfter q n)).length = (queueAfter q n).length) ∧
    (∀ i : ℕ, (tickCmds fail q)[i]? =
      (q[i]?).map (fun p => tickCmdFor fail (stepFade p.2))) := by
  refine ⟨?_, ?_, ?_, ?_⟩
  · intro w v hw
    simp [change_opacity, command, hw]
  · intro w v hw
    simp [change_opacity, command, hw]
  · intro n
    simp [tickCmds]
  · intro i
    simp [tickCmds]

/-- Witness for `tick_command_failures_nonfatal`: port calls for window 1
fail, those for window 2 succeed, on a two-fade queue. -/
theorem tick_command_failures_nonfatal_witness :
    ((fun i => decide (i = 1)) wTileA.id = true) ∧
    change_opacity (fun i => decide (i = 1)) wTileA (1 / 2) =
      CmdResult.warn wTileA.id ∧
    ((fun i => decide (i = 1)) wTileB.id = false) ∧
    change_opacity (fun i => decide (i = 1)) wTileB (1 / 2) =
      CmdResult.ok ⟨wTileB.id, 1 / 2⟩ ∧
    (tickCmds (fun i => decide (i = 1))
        (queueAfter [(wTileA.id, fadeUp), (wTileB.id, fadeDown)] 0)).length =
      (queueAfter [(wTileA.id, fadeUp), (wTileB.id, fadeDown)] 0).length ∧
    (tickCmds (fun i => decide (i = 1))
        [(wTileA.id, fadeUp), (wTileB.id, fadeDown)])[1]? =
      ([(wTileA.id, fadeUp), (wTileB.id, fadeDown)][1]?).map
        (fun p => tickCmdFor (fun i => decide (i = 1)) (stepFade p.2)) :=
  ⟨by decide,
   (tick_command_failures_nonfatal (fun i => decide (i = 1))
      [(wTileA.id, fadeUp), (wTileB.id, fadeDown)]).1 wTileA (1 / 2) (by decide),
   by decide,
   (tick_command_failures_nonfatal (fun i => decide (i = 1))
      [(wTileA.id, fadeUp), (wTileB.id, fadeDown)]).2.1 wTileB (1 / 2) (by decide),
   (tick_command_failures_nonfatal (fun i => decide (i = 1))
      [(wTileA.id, fadeUp), (wTileB.id, fadeDown)]).2.2.1 0,
   (tick_command_failures_nonfatal (fun i => decide (i = 1))
      [(wTileA.id, fadeUp), (wTileB.id, fadeDown)]).2.2.2 1⟩

/-! ### C8: the bottom-window invariant -/

theorem focus_preserves_bottom (s : RoleState) (c : Window)
    (h : BottomTiled s) : BottomTiled (on_window_focus s c).1 := by
  intro b hb
  rcases hact : s.active_win with _ | old
  · simp [on_window_focus, hact] at hb
    exact h b hb
  · by_cases h1 : old.id = c.id
    · simp [on_window_focus, hact, h1] at hb
      exact h b hb
    · by_cases h2 : old.type = "con"
      · by_cases h3 : c.type = "con"
        · simp [on_window_focus, hact, h1, h2, h3] at hb
          exact h b hb
        · simp [on_window_focus, hact, h1, h2, h3] at hb
          rw [← hb]
          exact h2
      · by_cases h3 : c.type = "con"
        · rcases hbot : s.bottom_win with _ | b0
          · simp [on_window_focus, hact, h1, h2, h3, hbot] at hb
          · by_cases h5 : c.id = b0.id
            · have hob : ¬old.id = b0.id := fun hx => h1 (h5 ▸ hx)
              simp [on_window_focus, hact, h1, h2, h3, hbot, h5, hob] at hb
              rw [← hb]
              exact h b0 hbot
            · simp [on_window_focus, hact, h1, h2, h3, hbot, h5] at hb
              rw [← hb]
              exact h3
        · simp [on_window_focus, hact, h1, h2, h3] at hb
          exact h b hb

theorem new_preserves_bottom (s : RoleState) (c : Window)
    (h : BottomTiled s) : BottomTiled (on_window_new s c).1 := by
  intro b hb
  rcases hbot : s.bottom_win with _ | b0
  · rcases hact : s.active_win with _ | a
    · simp [on_window_new, hbot, hact] at hb
    · by_cases ha : a.type = "con"
      · simp [on_window_new, hbot, hact, ha] at hb
        rw [← hb]
        exact ha
      · simp [on_window_new, hbot, hact, ha] at hb
  · simp [on_window_new, hbot] at hb
    rw [← hb]
    exact h b0 hbot

theorem floating_preserves_bottom (s : RoleState) (c : Window)
    (r : RoleState × List Call) (hr : on_window_floating s c = some r)
    (h : BottomTiled s) : BottomTiled r.1 := by
  by_cases hf : c.id ∉ s.floating_windows
  · rcases hact : s.active_win with _ | a
    · simp [on_window_floating, hf, hact] at hr
    · by_cases h1 : a.id = c.id
      · rcases hold : s.old_win with _ | o
        · simp [on_window_floating, hf, hact, h1, hold] at hr
          subst hr
          intro b hb
          simp at hb
          exact h b hb
        · rcases hbot : s.bottom_win with _ | b0
          · simp [on_window_floating, hf, hact, h1, hold, hbot] at hr
            subst hr
            intro b hb
            simp at hb
          · simp [on_window_floating, hf, hact, h1, hold, hbot] at hr
            subst hr
            intro b hb
            simp at hb
            rw [← hb]
            by_cases ho : o.type = "con"
            · rw [if_pos ho]
              exact ho
            · rw [if_neg ho]
              exact h b0 hbot
      · simp [on_window_floating, hf, hact, h1] at hr
        subst hr
        intro b hb
        simp at hb
        exact h b hb
  · rcases hact : s.active_win with _ | a
    · simp [on_window_floating, hf, hact] at hr
    · by_cases h1 : a.id = c.id
      · simp [on_window_floating, hf, hact, h1] at hr
        subst hr
        intro b hb
        simp at hb
        exact h b hb
      · simp [on_window_floating, hf, hact, h1] at hr
        subst hr
        intro b hb
        simp at hb
        exact h b hb

theorem initWindow_bottom (s : RoleState) (w : Window) :
    (initWindow s w).1.bottom_win = s.bottom_win := by
  unfold initWindow
  split_ifs <;> rfl

theorem init_fold_bottom (tree : List Window) :
    ∀ acc : RoleState × List Call,
      ((tree.foldl (fun acc w =>
          let r := initWindow acc.1 w
          (r.1, acc.2 ++ r.2)) acc).1).bottom_win = acc.1.bottom_win := by
  induction tree with
  | nil => intro acc; rfl
  | cons w ws ih =>
    intro acc
    rw [List.foldl_cons, ih]
    exact initWindow_bottom acc.1 w

theorem runEvents_preserves_bottom :
    ∀ (es : List SEvent) (s0 : RoleState), BottomTiled s0 →
      ∀ s1, runEvents s0 es = some s1 → BottomTiled s1 := by
  intro es
  induction es with
  | nil =>
    intro s0 h0 s1 h1
    have : s0 = s1 := Option.some.inj h1
    rw [← this]
    exact h0
  | cons e es ih =>
    intro s0 h0 s1 h1
    rw [runEvents] at h1
    rcases hse : stepEvent s0 e with _ | r
    · rw [hse] at h1
      exact absurd h1 (by simp)
    · rw [hse] at h1
      refine ih r.1 ?_ s1 h1
      cases e with
      | focus c =>
        have he : r = on_window_focus s0 c := (Option.some.inj hse).symm
        rw [he]
        exact focus_preserves_bottom s0 c h0
      | newWin c =>
        have he : r = on_window_new s0 c := (Option.some.inj hse).symm
        rw [he]
        exact new_preserves_bottom s0 c h0
      | floating c =>
        exact floating_preserves_bottom s0 c r hse h0

/-- C8: starting from the initial state (where `bottom_win = none`,
also after the startup tree walk, which never sets it), any
successfully processed sequence of focus, new-window, and
floating-toggle events leaves `bottom_win` either unset or pointing at
a tiled (`"con"`) window. -/
theorem bottom_always_tiled (tree : List Window) (es : List SEvent)
    (s1 : RoleState)
    (h : runEvents (init_existing_windows initialState tree).1 es = some s1) :
    s1.bottom_win = none ∨ ∃ b, s1.bottom_win = some b ∧ b.type = "con" := by
  have hinit : (init_existing_windows initialState tree).1.bottom_win = none :=
    init_fold_bottom tree (initialState, [])
  have h0 : BottomTiled (init_existing_windows initialState tree).1 := by
    intro b hb
    rw [hinit] at hb
    exact absurd hb (by simp)
  have hbt := runEvents_preserves_bottom es _ h0 s1 h
  rcases hb1 : s1.bottom_win with _ | b
  · exact Or.inl rfl
  · exact Or.inr ⟨b, rfl, hbt b hb1⟩

/-- Witness for `bottom_always_tiled`: startup with one focused tiled
window, then focus a floating window (demoting the tiled one to
bottom), then focus the tiled one again. -/
theorem bottom_always_tiled_witness :
    runEvents (init_existing_windows initialState
        [⟨1, "con", false, true⟩]).1
        [SEvent.focus wFloatF, SEvent.focus wTileA] =
      some { floating_windows := ∅,
             bottom_win := some ⟨1, "con", false, true⟩,
             old_win := none,
             active_win := some wTileA } ∧
    (({ floating_windows := ∅,
        bottom_win := some ⟨1, "con", false, true⟩,
        old_win := none,
        active_win := some wTileA } : RoleState).bottom_win = none ∨
      ∃ b, ({ floating_windows := ∅,
              bottom_win := some ⟨1, "con", false, true⟩,
              old_win := none,
              active_win := some wTileA } : RoleState).bottom_win = some b ∧
        b.type = "con") :=
  ⟨by decide,
   bottom_always_tiled [⟨1, "con", false, true⟩]
     [SEvent.focus wFloatF, SEvent.focus wTileA] _ (by decide)⟩

end Fadder
